import Mathlib

/-!
Verification of the dirorch workflow engine (a directory-driven workflow
orchestrator) against its natural-language specification.  The definitions
below are a shallow embedding of the Python sources under `src/dirorch/`:
pure functions become Lean functions, effectful code is modelled by explicit
state passing or by recording the sequence of effects performed, and
external collaborators (the Jinja template renderer, the shell, the
filesystem) become explicit function parameters.
-/

namespace Dirorch

/-! ## Data model (src/dirorch/models.py) -/

/-- `HookConfig` (models.py lines 9-12): a shell command with an optional
stdin template.  `stdin` defaults to `None` in the source. -/
structure HookConfig where
  cmd : String
  stdin : Option String := none
deriving DecidableEq, Repr

/-- `TransitionConfig` (models.py lines 15-21). -/
structure TransitionConfig where
  source : String
  destination : String
  cmd : Option String := none
  stdin : Option String := none
  jump : Option String := none
deriving DecidableEq, Repr

/-- `TransitionResult` (models.py lines 54-57). -/
structure TransitionResult where
  moved : Bool
  jump : Option String
deriving DecidableEq, Repr

/-- An entity path (`pathlib.Path` in the source): the components of the
containing directory together with the basename (`Path.name`). -/
structure EntityPath where
  dir : List String
  name : String
deriving DecidableEq, Repr

/-- `Group` (models.py lines 60-67). -/
structure Group where
  entities : List EntityPath
  key : Option String
deriving DecidableEq, Repr

/-- `Group.concurrent` (models.py lines 65-67). -/
def Group.concurrent (g : Group) : Bool :=
  g.key.isSome && decide (g.entities.length > 1)

/-- `PhaseConfig` (models.py lines 24-30); the mode string is one of
`"transitions"` or `"entity"`. -/
structure PhaseConfig where
  name : String
  states : List String
  transitions : List TransitionConfig
  completions : List HookConfig
  mode : String
deriving DecidableEq, Repr

/-- `WorkflowConfig` (models.py lines 33-42); `environment` is a Python
dict (ordered), modelled as an association list in insertion order. -/
structure WorkflowConfig where
  phases : List PhaseConfig
  environment : List (String × String)
  retries : Nat
  init : Option HookConfig
deriving Repr

/-- Modelled from the spec: `FAILED_STATE` lives in `dirorch/constants.py`,
which is not among the repository files provided; the spec fixes the
reserved failure directory name as `_failed` ("a reserved failure directory
`<root>/P/_failed`"). -/
def FAILED_STATE : String := "_failed"

/-! ## EntityStore grouping (src/dirorch/entities.py) -/

/-- `_group_key` (entities.py lines 84-88): the numeric prefix key of a
basename, i.e. the digits matched by the regex `^(\d+)-`.  The maximal
leading digit run must be followed by a literal `-`. -/
def group_key (name : String) : Option String :=
  let cs := name.data
  let digits := cs.takeWhile Char.isDigit
  if digits.isEmpty then none
  else
    match cs.drop digits.length with
    | '-' :: _ => some (String.mk digits)
    | _ => none

/-- The loop body of `EntityStore.group_entities` (entities.py lines 52-66)
as structural recursion: `pending` is the group being accumulated (always
nonempty here) and `pendingKey` its key (the key of its first entity).  An
entity joins the pending group exactly when its key is set and equals
`pendingKey`; otherwise the pending group is flushed and a fresh group
started. -/
def group_entities_go : List EntityPath → List EntityPath → Option String → List Group
  | [], pending, pendingKey => [⟨pending, pendingKey⟩]
  | e :: rest, pending, pendingKey =>
    let key := group_key e.name
    if key.isSome ∧ key = pendingKey then
      group_entities_go rest (pending ++ [e]) pendingKey
    else
      ⟨pending, pendingKey⟩ :: group_entities_go rest [e] key

/-- `EntityStore.group_entities` (entities.py lines 47-67): a single forward
scan grouping adjacent entities that share a numeric prefix key. -/
def group_entities : List EntityPath → List Group
  | [] => []
  | e :: rest => group_entities_go rest [e] (group_key e.name)

/-- Two entities share a numeric prefix key: both basenames have a key
(regex `^(\d+)-`) and the keys are equal. -/
def sameKey (a b : EntityPath) : Prop :=
  ∃ k, group_key a.name = some k ∧ group_key b.name = some k

/-- Two consecutive groups never straddle a shared key: the last entity of
the first and the first entity of the second do not share a key. -/
def groupBoundary (g h : Group) : Prop :=
  ∀ a b, g.entities.getLast? = some a → h.entities.head? = some b → ¬ sameKey a b

/-- `EntityStore.dir_for` (entities.py lines 25-26, 73-81): the directory the
store knows for a (phase, state) pair, namely `<root>/<phase>/<state>` as
built by `_build_phase_dirs` for every configured state and for
`FAILED_STATE`.  `root` is the components of the workflow root. -/
def dir_for (root : List String) (phaseName stateName : String) : List String :=
  root ++ [phaseName, stateName]

/-- The destination path of `EntityStore.move_to_state` (entities.py lines
28-33): the file is renamed to `<dir_for(phase, state)>/<basename>`. -/
def move_to_state_dest (root : List String) (phaseName stateName : String)
    (entity : EntityPath) : EntityPath :=
  ⟨dir_for root phaseName stateName, entity.name⟩

/-! ## HookRunner (src/dirorch/hooks.py) -/

/-- The observable outcome of one attempt of the `for attempt in range(...)`
loop of `HookRunner.run` (hooks.py lines 38-68): either the just-in-time
stdin render raised `StdinTemplateError`, or the child process exited with
the given code (`process.returncode`).  The render is not guaranteed to be
deterministic (it may re-read files), so the outcome is a function of the
attempt number. -/
inductive AttemptOutcome
  | renderFail
  | exit (code : Int)
deriving DecidableEq, Repr

/-- The attempt loop of `HookRunner.run` (hooks.py lines 38-69), with the
remaining attempt budget made explicit: returns (number of attempts made,
success).  A render failure `continue`s (consuming the attempt), a zero exit
code returns `True` at once, a non-zero exit code logs and retries; when
the budget is exhausted the loop falls through to `return False`. -/
def hook_run_go (outcome : Nat → AttemptOutcome) : Nat → Nat → Nat × Bool
  | 0, _ => (0, false)
  | remaining + 1, attempt =>
    match outcome attempt with
    | .renderFail =>
      let r := hook_run_go outcome remaining (attempt + 1)
      (r.1 + 1, r.2)
    | .exit code =>
      if code = 0 then (1, true)
      else
        let r := hook_run_go outcome remaining (attempt + 1)
        (r.1 + 1, r.2)

/-- `HookRunner.run` (hooks.py lines 32-69) instrumented with the attempt
count: `attempts = self._retries + 1` and the loop runs attempts 1, 2, ... -/
def HookRunner.runCounted (retries : Nat) (outcome : Nat → AttemptOutcome) : Nat × Bool :=
  hook_run_go outcome (retries + 1) 1

/-- The boolean `HookRunner.run` returns. -/
def HookRunner.run (retries : Nat) (outcome : Nat → AttemptOutcome) : Bool :=
  (HookRunner.runCounted retries outcome).2

/-! ## PhaseProcessor per-entity processing (src/dirorch/workflow.py) -/

/-- A path rendered as a string, modelling `str(entity.resolve())`. -/
def pathString (e : EntityPath) : String :=
  String.intercalate "/" (e.dir ++ [e.name])

/-- The observable effects of `PhaseProcessor._process_entity`: the returned
`TransitionResult`, the call made to `HookRunner.run` (the hook and the
`extra_env` passed), and the destination of the `EntityStore.move_to_state`
call, when those happen. -/
structure ProcessEntityOutcome where
  result : TransitionResult
  hookCall : Option (HookConfig × List (String × String))
  move : Option EntityPath
deriving DecidableEq, Repr

/-- `PhaseProcessor._process_entity` (workflow.py lines 64-104).  Inputs
beyond the transition and entity: whether `entity.exists()` (a concurrent
sibling may have consumed it), and the boolean the hook runner returns for
a given hook and extra environment.  The source builds the hook as
`HookConfig(transition.cmd)` — the `stdin` field is left at its default
`None`, i.e. `transition.stdin` is not passed along. -/
def process_entity (root : List String) (phaseName : String) (t : TransitionConfig)
    (entity : EntityPath) (entityExists : Bool)
    (hookRun : HookConfig → List (String × String) → Bool) : ProcessEntityOutcome :=
  if entityExists = false then
    ⟨⟨false, none⟩, none, none⟩
  else
    let extraEnv := [("INPUT_ENTITY", pathString entity)]
    match t.cmd with
    | none =>
      ⟨⟨true, t.jump⟩, none, some (move_to_state_dest root phaseName t.destination entity)⟩
    | some c =>
      let hc : HookConfig := ⟨c, none⟩
      if hookRun hc extraEnv then
        ⟨⟨true, t.jump⟩, some (hc, extraEnv),
          some (move_to_state_dest root phaseName t.destination entity)⟩
      else
        ⟨⟨false, none⟩, some (hc, extraEnv),
          some (move_to_state_dest root phaseName FAILED_STATE entity)⟩

/-- The success boolean `_process_entity` computes for an existing entity
(workflow.py lines 78-83): trivially `True` when `transition.cmd is None`,
otherwise whatever the hook runner returns for `HookConfig(transition.cmd)`
with `extra_env = {INPUT_ENTITY: path}`. -/
def process_entity_success (t : TransitionConfig) (entity : EntityPath)
    (hookRun : HookConfig → List (String × String) → Bool) : Bool :=
  match t.cmd with
  | none => true
  | some c => hookRun ⟨c, none⟩ [("INPUT_ENTITY", pathString entity)]

/-! ## WorkflowEngine main loop and jumps (src/dirorch/workflow.py) -/

/-- The mutable state of the main loop of `WorkflowEngine.run`
(workflow.py lines 262-275): `current_index` and `wrapped_to_first`. -/
structure LoopState where
  currentIndex : Nat
  wrapped : Bool
deriving DecidableEq, Repr

/-- What one main-loop iteration decides: terminate normally, or continue
with the updated state. -/
inductive LoopStep
  | terminated
  | next (s : LoopState)
deriving DecidableEq, Repr

/-- One iteration of the main loop of `WorkflowEngine.run` (workflow.py
lines 263-275), given `moved` = the total `processor.run_phase()` returned
this iteration.  `first_phase = phase_order[0]` is computed before the loop
(line 248). -/
def engine_loop_step (phaseOrder : List String) (s : LoopState) (moved : Nat) : LoopStep :=
  let phaseName := phaseOrder.getD s.currentIndex ""
  let firstPhase := phaseOrder.getD 0 ""
  if s.wrapped = true ∧ phaseName = firstPhase ∧ moved = 0 then
    .terminated
  else
    let nextIndex := (s.currentIndex + 1) % phaseOrder.length
    .next ⟨nextIndex, s.wrapped || (nextIndex == 0)⟩

/-- The loop iterated: the state at the start of iteration `i` (iterations
are numbered from 0), where `movedSeq i` is the move total the `i`-th phase
run returns.  `none` means the loop already terminated normally. -/
def engine_run_state (phaseOrder : List String) (movedSeq : Nat → Nat)
    (s0 : LoopState) : Nat → Option LoopState
  | 0 => some s0
  | i + 1 =>
    match engine_run_state phaseOrder movedSeq s0 i with
    | none => none
    | some s =>
      match engine_loop_step phaseOrder s (movedSeq i) with
      | .terminated => none
      | .next s' => some s'

/-- The effects `WorkflowEngine._run_jump` and `PhaseProcessor.run_phase`
can perform, in order: persisting the current phase
(`RuntimeStateStore.save_current_phase`), running a phase body to fixpoint
(`PhaseProcessor._run`), and running its completion hooks
(`PhaseProcessor._run_completions`). -/
inductive EngineEffect
  | savePhase (name : String)
  | runPhaseBody (name : String)
  | runCompletions (name : String)
deriving DecidableEq, Repr

/-- `PhaseProcessor.run_phase` (workflow.py lines 47-54): runs the phase
body to fixpoint, then exactly one round of completion hooks. -/
def run_phase_effects (name : String) : List EngineEffect :=
  [.runPhaseBody name, .runCompletions name]

/-- `WorkflowEngine._run_jump` (workflow.py lines 277-291) as the sequence
of effects it performs: a self-jump is ignored (a warning is logged);
otherwise it persists `current_phase = target`, runs the target phase to
fixpoint (completion hooks included), and persists `current_phase = source`
before returning to the suspended caller. -/
def run_jump (target source : String) : List EngineEffect :=
  if target = source then []
  else .savePhase target :: run_phase_effects target ++ [.savePhase source]

/-- The persisted `current_phase` after a sequence of effects, starting from
`p` (`none` = no state file yet). -/
def persistedAfter (p : Option String) : List EngineEffect → Option String
  | [] => p
  | .savePhase n :: rest => persistedAfter (some n) rest
  | .runPhaseBody _ :: rest => persistedAfter p rest
  | .runCompletions _ :: rest => persistedAfter p rest

/-! ## RuntimeStateStore (src/dirorch/state.py) -/

/-- A JSON value, as `json.loads` produces it. -/
inductive Json
  | null
  | bool (b : Bool)
  | num (n : Int)
  | str (s : String)
  | arr (items : List Json)
  | obj (fields : List (String × Json))
deriving Repr

/-- `payload.get(key)` on a parsed JSON object: Python dicts from
`json.loads` keep the last occurrence of a duplicated key. -/
def jsonObjGet (fields : List (String × Json)) (key : String) : Option Json :=
  fields.foldl (fun acc p => if p.1 = key then some p.2 else acc) none

/-- What is on disk at `<root>/<state_file>` when `load_current_phase` runs:
the file is absent; or reading/parsing it fails (`OSError` or
`json.JSONDecodeError`); or it parses to a JSON payload. -/
inductive StateFileContents
  | absent
  | unreadable
  | parsed (payload : Json)

/-- How `RuntimeStateStore.load_current_phase` can end. `corruptState`
models raising the corrupt-state error (the source raises `WorkflowError`
from `dirorch/errors.py`, which the spec calls `CorruptState` here);
`pythonError` models an uncaught Python exception. -/
inductive LoadPhaseResult
  | ok (phase : Option String)
  | corruptState
  | pythonError
deriving DecidableEq, Repr

/-- `RuntimeStateStore.load_current_phase` (state.py lines 15-32).  Note
`payload.get("current_phase")` yields Python `None` both when the key is
absent and when its value is JSON `null`, and raises `AttributeError` when
the payload is not a dict. -/
def load_current_phase : StateFileContents → LoadPhaseResult
  | .absent => .ok none
  | .unreadable => .corruptState
  | .parsed payload =>
    match payload with
    | .obj fields =>
      match jsonObjGet fields "current_phase" with
      | none => .ok none
      | some .null => .ok none
      | some (.str s) => .ok (some s)
      | some _ => .corruptState
    | _ => .pythonError

/-- The state file has a `current_phase` key (on its parsed JSON object). -/
def currentPhaseKeyPresent : StateFileContents → Bool
  | .parsed (.obj fields) => (jsonObjGet fields "current_phase").isSome
  | _ => false

/-- The state file has a `current_phase` key whose value is a JSON string. -/
def currentPhaseValueIsString : StateFileContents → Bool
  | .parsed (.obj fields) =>
    match jsonObjGet fields "current_phase" with
    | some (.str _) => true
    | _ => false
  | _ => false

/-! ## Hook environment construction (src/dirorch/env.py)

Python dicts are ordered; an environment is an association list in
insertion order with unique keys maintained by `dictSet`. -/

/-- An environment mapping, as a Python dict: ordered, unique keys. -/
abbrev Env := List (String × String)

/-- `d[k] = v` on a Python dict: overwrite in place, or append. -/
def dictSet (e : Env) (k v : String) : Env :=
  if e.any (fun p => p.1 == k) then
    e.map (fun p => if p.1 = k then (k, v) else p)
  else e ++ [(k, v)]

/-- `a | b` on Python dicts (also `a.update(b)`): entries of `b` win on
collision, positions of existing keys are kept. -/
def dictMerge (a b : Env) : Env :=
  b.foldl (fun acc p => dictSet acc p.1 p.2) a

/-- `_sanitize_token` (env.py lines 67-69): uppercase, then replace every
character outside `[A-Z0-9]` with `_` (ASCII names assumed). -/
def sanitize_token (raw : String) : String :=
  String.map (fun c => if c.isUpper || c.isDigit then c else '_') raw.toUpper

/-- The directory bindings of `build_defined_hook_env` (env.py lines 26-31):
for each (phase, state) in configured order, bind
`DIR_<sanitize(phase)>_<sanitize(state)>` to the state directory path. -/
def dirEnvOf (config : WorkflowConfig) (root : List String) : Env :=
  config.phases.foldl
    (fun acc phase =>
      phase.states.foldl
        (fun acc2 state =>
          dictSet acc2
            ("DIR_" ++ sanitize_token phase.name ++ "_" ++ sanitize_token state)
            (String.intercalate "/" (root ++ [phase.name, state])))
        acc)
    []

/-- What one round of the `while remaining` loop of `_render_workflow_env`
(env.py lines 44-57) produces: the rendered entries so far, the entries
still unrendered, the recorded error messages, whether the round
progressed, and — as pure instrumentation — every template context passed
to the renderer. -/
structure RoundOutcome where
  rendered : Env
  remaining : List (String × String)
  errors : Env
  progressed : Bool
  contexts : List Env

/-- One round of `_render_workflow_env`'s loop: each still-unrendered entry
is attempted with context `dir_env | rendered` (rendered entries of the
same round included, since the source recomputes the context per key). -/
def renderRound (render : String → Env → Except String String) (dirEnv : Env) :
    List (String × String) → Env → Env → RoundOutcome
  | [], rendered, errors => ⟨rendered, [], errors, false, []⟩
  | (k, tmpl) :: rest, rendered, errors =>
    let context := dictMerge dirEnv rendered
    match render tmpl context with
    | .ok v =>
      let o := renderRound render dirEnv rest (dictSet rendered k v) errors
      ⟨o.rendered, o.remaining, o.errors, true, context :: o.contexts⟩
    | .error msg =>
      let o := renderRound render dirEnv rest rendered (dictSet errors k msg)
      ⟨o.rendered, (k, tmpl) :: o.remaining, o.errors, o.progressed, context :: o.contexts⟩

/-- The `InvalidWorkflow` message raised on a no-progress round (env.py
lines 59-62): names the first remaining key and its recorded error. -/
def envErrorMessage (remaining : List (String × String)) (errors : Env) : String :=
  match remaining with
  | [] => ""
  | (k, _) :: _ =>
    "Environment variable " ++ k ++ " template failed: " ++
      (match errors.find? (fun p => p.1 == k) with
       | some p => p.2
       | none => "")

/-- The `while remaining` loop of `_render_workflow_env` (env.py lines
44-62), fuelled: every recursive call follows a round that removed at least
one entry, so fuel `remaining.length` never runs out (the fuel-0 sentinel
is unreachable from `render_workflow_env`).  Second component: every
template context used, for the isolation theorem. -/
def renderRoundsGo (render : String → Env → Except String String) (dirEnv : Env) :
    Nat → Env → List (String × String) → Except String Env × List Env
  | _, rendered, [] => (.ok rendered, [])
  | 0, _, remaining => (.error (envErrorMessage remaining []), [])
  | fuel + 1, rendered, remaining =>
    let o := renderRound render dirEnv remaining rendered []
    if o.progressed then
      let r := renderRoundsGo render dirEnv fuel o.rendered o.remaining
      (r.1, o.contexts ++ r.2)
    else
      (.error (envErrorMessage remaining o.errors), o.contexts)

/-- `_render_workflow_env` (env.py lines 36-64). -/
def render_workflow_env (render : String → Env → Except String String)
    (rawEnv : List (String × String)) (dirEnv : Env) : Except String Env :=
  (renderRoundsGo render dirEnv rawEnv.length [] rawEnv).1

/-- `build_defined_hook_env` (env.py lines 24-33).  `procEnv` models the
ambient process environment `os.environ`, available to the module but never
read by this function; `render` models `TemplateRenderer.render` (a
function of the template and the context only). -/
def build_defined_hook_env (procEnv : Env) (render : String → Env → Except String String)
    (config : WorkflowConfig) (root : List String) : Except String Env :=
  let _ := procEnv
  let dirEnv := dirEnvOf config root
  match render_workflow_env render config.environment dirEnv with
  | .error e => .error e
  | .ok rendered => .ok (dictMerge rendered dirEnv)

/-- `build_hook_env_from_defined` (env.py lines 17-21): this one does read
`os.environ` — `env = dict(os.environ); env.update(defined_env)`. -/
def build_hook_env_from_defined (procEnv : Env) (definedEnv : Env) : Env :=
  dictMerge procEnv definedEnv

/-- Every template context `build_defined_hook_env` passes to the renderer
for the given config and root (instrumentation of `renderRoundsGo`). -/
def renderContextsOf (render : String → Env → Except String String)
    (config : WorkflowConfig) (root : List String) : List Env :=
  (renderRoundsGo render (dirEnvOf config root) config.environment.length []
    config.environment).2

/-! ## Theorems -/

/-- A list all of whose basenames share the numeric key `k` is chained by
`sameKey`. -/
theorem chain'_sameKey_const (k : String) (l : List EntityPath)
    (h : ∀ x ∈ l, group_key x.name = some k) : l.Chain' sameKey := by
  induction l with
  | nil => exact List.chain'_nil
  | cons a t ih =>
    cases t with
    | nil => exact List.chain'_singleton a
    | cons b t2 =>
      refine List.chain'_cons.mpr ⟨⟨k, h a (by simp), h b (by simp)⟩, ih ?_⟩
      intro x hx
      exact h x (List.mem_cons_of_mem _ hx)

/-- Invariant lemma for the `group_entities` scan: provided the pending
group is nonempty, all its basenames carry its key, and a keyless pending
group is a singleton, the scan flattens back to `pending ++ rest`, every
emitted group is a nonempty `sameKey`-chain (singleton if keyless), the
emitted groups never straddle a shared key, and the first emitted group
starts with the pending group's first entity. -/
theorem group_entities_go_spec (rest : List EntityPath) :
    ∀ (pending : List EntityPath) (pendingKey : Option String),
    pending ≠ [] →
    (∀ x ∈ pending, group_key x.name = pendingKey) →
    (pendingKey = none → ∃ e, pending = [e]) →
    ((group_entities_go rest pending pendingKey).flatMap Group.entities = pending ++ rest) ∧
    (∀ g ∈ group_entities_go rest pending pendingKey,
        g.entities ≠ [] ∧ g.entities.Chain' sameKey ∧
        ((∃ x ∈ g.entities, group_key x.name = none) → ∃ e, g.entities = [e])) ∧
    (group_entities_go rest pending pendingKey).Chain' groupBoundary ∧
    (∃ g gs, group_entities_go rest pending pendingKey = g :: gs ∧
        g.entities.head? = pending.head?) := by
  induction rest with
  | nil =>
    intro pending pendingKey hne hkeys hsingle
    refine ⟨by simp [group_entities_go], ?_, ?_, ⟨_, [], rfl, rfl⟩⟩
    · intro g hg
      simp only [group_entities_go, List.mem_singleton] at hg
      subst hg
      refine ⟨hne, ?_, ?_⟩
      · cases pendingKey with
        | none =>
          obtain ⟨e, he⟩ := hsingle rfl
          simp [he]
        | some k => exact chain'_sameKey_const k pending hkeys
      · rintro ⟨x, hx, hxnone⟩
        apply hsingle
        rw [← hkeys x hx, hxnone]
    · simp [group_entities_go]
  | cons e rest ih =>
    intro pending pendingKey hne hkeys hsingle
    by_cases hcond : (group_key e.name).isSome ∧ group_key e.name = pendingKey
    · have hstep : group_entities_go (e :: rest) pending pendingKey =
        group_entities_go rest (pending ++ [e]) pendingKey := by
        simp only [group_entities_go]
        rw [if_pos hcond]
      have hkeys' : ∀ x ∈ pending ++ [e], group_key x.name = pendingKey := by
        intro x hx
        rcases List.mem_append.mp hx with h1 | h2
        · exact hkeys x h1
        · simp at h2; subst h2; exact hcond.2
      have hsingle' : pendingKey = none → ∃ x, pending ++ [e] = [x] := by
        intro hnone
        rw [hnone] at hcond
        rw [hcond.2] at hcond
        simp at hcond
      obtain ⟨hbind, hgroups, hchain, g, gs, heq, hhead⟩ :=
        ih (pending ++ [e]) pendingKey (by simp) hkeys' hsingle'
      refine ⟨?_, ?_, ?_, ⟨g, gs, ?_, ?_⟩⟩
      · rw [hstep, hbind, List.append_assoc]; rfl
      · rw [hstep]; exact hgroups
      · rw [hstep]; exact hchain
      · rw [hstep]; exact heq
      · rw [hhead]
        cases pending with
        | nil => exact absurd rfl hne
        | cons p ps => rfl
    · have hstep : group_entities_go (e :: rest) pending pendingKey =
        ⟨pending, pendingKey⟩ :: group_entities_go rest [e] (group_key e.name) := by
        simp only [group_entities_go]
        rw [if_neg hcond]
      obtain ⟨hbind, hgroups, hchain, g, gs, heq, hhead⟩ :=
        ih [e] (group_key e.name) (by simp) (by simp) (fun _ => ⟨e, rfl⟩)
      have hpendgood : ({ entities := pending, key := pendingKey } : Group).entities ≠ [] ∧
          ({ entities := pending, key := pendingKey } : Group).entities.Chain' sameKey ∧
          ((∃ x ∈ ({ entities := pending, key := pendingKey } : Group).entities,
              group_key x.name = none) →
            ∃ x, ({ entities := pending, key := pendingKey } : Group).entities = [x]) := by
        refine ⟨hne, ?_, ?_⟩
        · cases pendingKey with
          | none =>
            obtain ⟨x, hx⟩ := hsingle rfl
            simp [hx]
          | some k => exact chain'_sameKey_const k pending hkeys
        · rintro ⟨x, hx, hxnone⟩
          apply hsingle
          rw [← hkeys x hx, hxnone]
      refine ⟨?_, ?_, ?_,
        ⟨⟨pending, pendingKey⟩, group_entities_go rest [e] (group_key e.name), hstep, rfl⟩⟩
      · rw [hstep]
        show pending ++ (group_entities_go rest [e] (group_key e.name)).flatMap Group.entities
          = pending ++ e :: rest
        rw [hbind]
        rfl
      · intro g2 hg2
        rw [hstep] at hg2
        rcases List.mem_cons.mp hg2 with h1 | h2
        · subst h1; exact hpendgood
        · exact hgroups g2 h2
      · rw [hstep, heq]
        refine List.chain'_cons.mpr ⟨?_, heq ▸ hchain⟩
        intro a b hlast hh hsk
        rw [hhead] at hh
        simp at hh
        subst hh
        obtain ⟨k, hak, hek⟩ := hsk
        have hamem : a ∈ pending := by
          obtain ⟨hnil, hx⟩ :=
            List.mem_getLast?_eq_getLast (show a ∈ pending.getLast? from hlast)
          rw [hx]
          exact List.getLast_mem hnil
        have hpk : pendingKey = some k := by rw [← hkeys a hamem, hak]
        exact hcond ⟨by simp [hek], by rw [hek, hpk]⟩

/-- C5: `group_entities` is a single forward scan whose groups flatten back
to the input in order (groups, and entities within a group, preserve input
order); every group is nonempty and chained by `sameKey` (adjacent entities
inside one group both have a numeric prefix key and the keys are equal, and
a group containing a keyless entity is a singleton), while the boundary
between consecutive groups never joins two entities sharing a key — so two
adjacent input entities land in the same group iff both have a numeric
prefix key (regex `^(\d+)-`) and the keys are equal. -/
theorem group_entities_spec (es : List EntityPath) :
    ((group_entities es).flatMap Group.entities = es) ∧
    (∀ g ∈ group_entities es, g.entities ≠ [] ∧ g.entities.Chain' sameKey ∧
      ((∃ x ∈ g.entities, group_key x.name = none) → ∃ e, g.entities = [e])) ∧
    (group_entities es).Chain' groupBoundary := by
  cases es with
  | nil => simp [group_entities]
  | cons e rest =>
    obtain ⟨h1, h2, h3, _⟩ :=
      group_entities_go_spec rest [e] (group_key e.name) (by simp) (by simp)
        (fun _ => ⟨e, rfl⟩)
    exact ⟨h1, h2, h3⟩

/-- C9: group keys are compared as strings, not numbers — `01-a` followed by
`1-b` yields the keys `01` and `1`, which are numerically equal but
textually different, so the two adjacent entities land in two distinct
singleton groups: leading zeros are significant for grouping. -/
theorem group_entities_leading_zeros_distinct :
    group_key "01-a" = some "01" ∧ group_key "1-b" = some "1" ∧
    group_entities [⟨[], "01-a"⟩, ⟨[], "1-b"⟩] =
      [⟨[⟨[], "01-a"⟩], some "01"⟩, ⟨[⟨[], "1-b"⟩], some "1"⟩] := by
  refine ⟨rfl, rfl, ?_⟩
  decide


/-- Attempt-loop invariant for `HookRunner.run`: at most `remaining`
attempts are made; success iff some in-budget attempt exits zero; and if
none does, the whole budget is consumed. -/
theorem hook_run_go_spec (outcome : Nat → AttemptOutcome) (remaining : Nat) :
    ∀ attempt,
    (hook_run_go outcome remaining attempt).1 ≤ remaining ∧
    ((hook_run_go outcome remaining attempt).2 = true ↔
      ∃ k, attempt ≤ k ∧ k < attempt + remaining ∧ outcome k = .exit 0) ∧
    ((∀ k, attempt ≤ k → k < attempt + remaining → outcome k ≠ .exit 0) →
      (hook_run_go outcome remaining attempt).1 = remaining) := by
  induction remaining with
  | zero =>
    intro attempt
    refine ⟨Nat.le_refl 0, ⟨fun h => absurd h (by simp [hook_run_go]), ?_⟩, fun _ => rfl⟩
    rintro ⟨k, h1, h2, _⟩
    omega
  | succ n ih =>
    intro attempt
    obtain ⟨ihle, ihiff, ihall⟩ := ih (attempt + 1)
    cases houtcome : outcome attempt with
    | renderFail =>
      have hgo : hook_run_go outcome (n + 1) attempt =
          ((hook_run_go outcome n (attempt + 1)).1 + 1,
           (hook_run_go outcome n (attempt + 1)).2) := by
        simp [hook_run_go, houtcome]
      rw [hgo]
      refine ⟨by simpa using Nat.succ_le_succ ihle, ⟨?_, ?_⟩, ?_⟩
      · intro h
        obtain ⟨k, h1, h2, hk⟩ := ihiff.mp h
        exact ⟨k, by omega, by omega, hk⟩
      · rintro ⟨k, h1, h2, hk⟩
        rcases Nat.eq_or_lt_of_le h1 with heq | hlt
        · subst heq
          rw [houtcome] at hk
          exact absurd hk (by simp)
        · exact ihiff.mpr ⟨k, by omega, by omega, hk⟩
      · intro hall
        have : (hook_run_go outcome n (attempt + 1)).1 = n :=
          ihall (fun k hk1 hk2 => hall k (by omega) (by omega))
        simp [this]
    | exit code =>
      by_cases hc : code = 0
      · subst hc
        have hgo : hook_run_go outcome (n + 1) attempt = (1, true) := by
          simp [hook_run_go, houtcome]
        rw [hgo]
        refine ⟨by omega, ⟨fun _ => ⟨attempt, Nat.le_refl _, by omega, houtcome⟩, fun _ => rfl⟩, ?_⟩
        intro hall
        exact absurd houtcome (hall attempt (Nat.le_refl _) (by omega))
      · have hgo : hook_run_go outcome (n + 1) attempt =
            ((hook_run_go outcome n (attempt + 1)).1 + 1,
             (hook_run_go outcome n (attempt + 1)).2) := by
          simp [hook_run_go, houtcome, hc]
        rw [hgo]
        refine ⟨by simpa using Nat.succ_le_succ ihle, ⟨?_, ?_⟩, ?_⟩
        · intro h
          obtain ⟨k, h1, h2, hk⟩ := ihiff.mp h
          exact ⟨k, by omega, by omega, hk⟩
        · rintro ⟨k, h1, h2, hk⟩
          rcases Nat.eq_or_lt_of_le h1 with heq | hlt
          · subst heq
            rw [houtcome] at hk
            exact absurd (by injection hk) hc
          · exact ihiff.mpr ⟨k, by omega, by omega, hk⟩
        · intro hall
          have : (hook_run_go outcome n (attempt + 1)).1 = n :=
            ihall (fun k hk1 hk2 => hall k (by omega) (by omega))
          simp [this]

/-- C3: for every hook-attempt outcome sequence and configured retries
value r, `HookRunner.run` makes at most r+1 attempts, succeeds iff some
attempt k with 1 <= k <= r+1 has child exit code zero; and when no attempt
in the budget succeeds (render failures included, which consume an attempt
from the same budget) it returns failure — a boolean, never an exception —
after making exactly r+1 attempts. -/
theorem hook_runner_retry_spec (retries : Nat) (outcome : Nat → AttemptOutcome) :
    (HookRunner.runCounted retries outcome).1 ≤ retries + 1 ∧
    (HookRunner.run retries outcome = true ↔
      ∃ k, 1 ≤ k ∧ k ≤ retries + 1 ∧ outcome k = .exit 0) ∧
    ((∀ k, 1 ≤ k → k ≤ retries + 1 → outcome k ≠ .exit 0) →
      HookRunner.run retries outcome = false ∧
      (HookRunner.runCounted retries outcome).1 = retries + 1) := by
  obtain ⟨hle, hiff, hall⟩ := hook_run_go_spec outcome (retries + 1) 1
  refine ⟨hle, ⟨?_, ?_⟩, ?_⟩
  · intro h
    obtain ⟨k, h1, h2, hk⟩ := hiff.mp h
    exact ⟨k, h1, by omega, hk⟩
  · rintro ⟨k, h1, h2, hk⟩
    exact hiff.mpr ⟨k, h1, by omega, hk⟩
  · intro h
    have hcount := hall (fun k hk1 hk2 => h k hk1 (by omega))
    refine ⟨?_, hcount⟩
    cases hrun : HookRunner.run retries outcome
    · rfl
    · obtain ⟨k, h1, h2, hk⟩ := hiff.mp hrun
      exact absurd hk (h k h1 (by omega))


/-- C2: from any reachable main-loop state, the `WorkflowEngine.run` loop
terminates normally in the next iteration exactly when (a) the loop has
wrapped past the end of the phase list at least once (`wrapped_to_first`),
(b) the phase just processed is the first configured phase, and (c) that
phase run returned zero moves; whenever any of (a)-(c) fails, the engine
advances round-robin to the next phase
(`(current_index + 1) % len(phase_order)`) and continues. -/
theorem engine_loop_termination_spec (order : List String) (movedSeq : Nat → Nat)
    (s0 : LoopState) (i : Nat) (s : LoopState)
    (h : engine_run_state order movedSeq s0 i = some s) :
    (engine_run_state order movedSeq s0 (i + 1) = none ↔
      s.wrapped = true ∧ order.getD s.currentIndex "" = order.getD 0 "" ∧ movedSeq i = 0) ∧
    (¬ (s.wrapped = true ∧ order.getD s.currentIndex "" = order.getD 0 "" ∧ movedSeq i = 0) →
      engine_run_state order movedSeq s0 (i + 1) =
        some ⟨(s.currentIndex + 1) % order.length,
              s.wrapped || ((s.currentIndex + 1) % order.length == 0)⟩) := by
  have hstep : engine_run_state order movedSeq s0 (i + 1) =
      (match engine_loop_step order s (movedSeq i) with
       | .terminated => none
       | .next s' => some s') := by
    simp only [engine_run_state]
    rw [h]
  by_cases hc : s.wrapped = true ∧ order.getD s.currentIndex "" = order.getD 0 "" ∧ movedSeq i = 0
  · have hls : engine_loop_step order s (movedSeq i) = .terminated := by
      simp only [engine_loop_step]
      rw [if_pos hc]
    rw [hstep, hls]
    exact ⟨⟨fun _ => hc, fun _ => rfl⟩, fun hn => absurd hc hn⟩
  · have hls : engine_loop_step order s (movedSeq i) =
        .next ⟨(s.currentIndex + 1) % order.length,
               s.wrapped || ((s.currentIndex + 1) % order.length == 0)⟩ := by
      simp only [engine_loop_step]
      rw [if_neg hc]
    rw [hstep, hls]
    refine ⟨⟨fun h2 => absurd h2 (by simp), fun h2 => absurd h2 hc⟩, fun _ => rfl⟩

/-- Witness for the main-loop theorem: two phases, every run moving one
entity, starting un-wrapped at index 0 — the loop continues to index 1. -/
theorem engine_loop_termination_spec_witness :
    engine_run_state ["alpha", "beta"] (fun _ => 1) ⟨0, false⟩ 1 = some ⟨1, false⟩ := by
  have h := engine_loop_termination_spec ["alpha", "beta"] (fun _ => 1) ⟨0, false⟩ 0 ⟨0, false⟩ rfl
  have h2 := h.2 (by simp)
  simpa using h2

/-- C4: processing one entity under one transition has exactly three
outcomes: a missing entity is a no-op with result (moved=false, jump=none)
and no move; on hook success (or when the transition has no cmd) the entity
is moved to the transition's destination state with result
(moved=true, jump=T.jump); on hook failure the entity is moved to the
phase's `_failed` directory with result (moved=false, jump=none).  The
embedding is a total function: no exception is raised, the run continues. -/
theorem process_entity_outcomes (root : List String) (phaseName : String)
    (t : TransitionConfig) (entity : EntityPath) (entityExists : Bool)
    (hookRun : HookConfig → List (String × String) → Bool) :
    (entityExists = false →
      process_entity root phaseName t entity entityExists hookRun =
        ⟨⟨false, none⟩, none, none⟩) ∧
    (entityExists = true → process_entity_success t entity hookRun = true →
      (process_entity root phaseName t entity entityExists hookRun).result = ⟨true, t.jump⟩ ∧
      (process_entity root phaseName t entity entityExists hookRun).move =
        some (move_to_state_dest root phaseName t.destination entity)) ∧
    (entityExists = true → process_entity_success t entity hookRun = false →
      (process_entity root phaseName t entity entityExists hookRun).result = ⟨false, none⟩ ∧
      (process_entity root phaseName t entity entityExists hookRun).move =
        some (move_to_state_dest root phaseName FAILED_STATE entity)) := by
  refine ⟨?_, ?_, ?_⟩
  · intro h
    subst h
    rfl
  · intro hex hsucc
    subst hex
    cases hc : t.cmd with
    | none => simp [process_entity, hc]
    | some c =>
      simp only [process_entity_success, hc] at hsucc
      simp [process_entity, hc, hsucc]
  · intro hex hsucc
    subst hex
    cases hc : t.cmd with
    | none =>
      simp only [process_entity_success, hc] at hsucc
      exact Bool.noConfusion hsucc
    | some c =>
      simp only [process_entity_success, hc] at hsucc
      simp [process_entity, hc, hsucc]

/-- C10: every file movement preserves the entity's basename — for every
(phase, state) pair, `move_to_state` renames the file to
`<dir_for(phase, state)>/<original basename>`, and every move
`_process_entity` performs (success move to the destination state or
failure move to `_failed`) goes through `move_to_state`, so the entity's
identity (its basename) is invariant. -/
theorem move_to_state_preserves_basename (root : List String)
    (phaseName stateName : String) (t : TransitionConfig) (entity : EntityPath)
    (entityExists : Bool) (hookRun : HookConfig → List (String × String) → Bool) :
    (move_to_state_dest root phaseName stateName entity).name = entity.name ∧
    (∀ d, (process_entity root phaseName t entity entityExists hookRun).move = some d →
      d.name = entity.name) := by
  refine ⟨rfl, ?_⟩
  intro d hd
  cases entityExists with
  | false => simp [process_entity] at hd
  | true =>
    cases hc : t.cmd with
    | none =>
      simp [process_entity, hc] at hd
      rw [← hd]
      rfl
    | some c =>
      by_cases hr : hookRun ⟨c, none⟩ [("INPUT_ENTITY", pathString entity)] = true
      · simp [process_entity, hc, hr] at hd
        rw [← hd]
        rfl
      · simp [process_entity, hc, hr] at hd
        rw [← hd]
        rfl

/-- C1 (code bug, workflow.py line 82): with a transition whose cmd and
stdin are both set, the hook handed to the HookRunner is
`HookConfig(cmd := T.cmd, stdin := none)` — the source builds
`HookConfig(transition.cmd)` and drops `transition.stdin`, so the stdin
template is never rendered nor fed to the subprocess, contradicting the
spec and the repository's own tests.  The cmd-unset half of the claim does
hold: success is declared trivially without invoking the HookRunner. -/
theorem process_entity_drops_transition_stdin :
    (process_entity ["root"] "tasks"
        ⟨"new", "done", some "cat > out", some "greeting=X", none⟩
        ⟨["root", "tasks", "new"], "x.txt"⟩ true (fun _ _ => true)).hookCall =
      some (⟨"cat > out", none⟩, [("INPUT_ENTITY", "root/tasks/new/x.txt")]) ∧
    (process_entity ["root"] "tasks"
        ⟨"new", "done", none, none, none⟩
        ⟨["root", "tasks", "new"], "x.txt"⟩ true (fun _ _ => true)).hookCall = none := by
  constructor
  · rfl
  · rfl

/-- C6: `_run_jump` with target equal to source performs no phase run and
leaves the persisted `current_phase` unchanged; with a different target it
performs exactly: persist `current_phase = target`, run the target phase to
fixpoint, run that phase's completion hooks, persist
`current_phase = source` — so the persisted phase after the jump is the
source. -/
theorem run_jump_spec (target source : String) (p : Option String) :
    run_jump target source =
      (if target = source then []
       else [.savePhase target, .runPhaseBody target, .runCompletions target,
             .savePhase source]) ∧
    persistedAfter p (run_jump target source) =
      (if target = source then p else some source) := by
  by_cases h : target = source <;>
    simp [run_jump, run_phase_effects, persistedAfter, h]


/-- C7 counterexample: a state file holding the well-formed JSON object
`{"current_phase": null}` has the `current_phase` key present with a
non-string value, yet `load_current_phase` returns `None` rather than
failing with the corrupt-state error — `payload.get` collapses a JSON null
to Python `None` (state.py lines 25-27). -/
theorem load_current_phase_null_counterexample :
    currentPhaseKeyPresent (.parsed (.obj [("current_phase", .null)])) = true ∧
    currentPhaseValueIsString (.parsed (.obj [("current_phase", .null)])) = false ∧
    load_current_phase (.parsed (.obj [("current_phase", .null)])) = .ok none ∧
    load_current_phase (.parsed (.obj [("current_phase", .null)])) ≠ .corruptState := by
  refine ⟨rfl, rfl, rfl, ?_⟩
  intro h
  rw [show load_current_phase (.parsed (.obj [("current_phase", .null)])) = .ok none
      from rfl] at h
  exact LoadPhaseResult.noConfusion h

/-- C7 as amended: `load_current_phase` returns none exactly when the state
file is absent, or the JSON object has no `current_phase` key, or that
key's value is JSON null; it returns the stored string exactly when the
value is a JSON string; and it fails with the corrupt-state error exactly
when the file is unreadable/malformed or the `current_phase` value is
present, non-null and not a string.  (A payload that parses but is not a
JSON object instead raises an uncaught `AttributeError`.) -/
theorem load_current_phase_spec (sf : StateFileContents) :
    (load_current_phase sf = .corruptState ↔
      sf = .unreadable ∨
      ∃ fields v, sf = .parsed (.obj fields) ∧
        jsonObjGet fields "current_phase" = some v ∧ v ≠ .null ∧ ∀ s, v ≠ .str s) ∧
    (load_current_phase sf = .ok none ↔
      sf = .absent ∨
      ∃ fields, sf = .parsed (.obj fields) ∧
        (jsonObjGet fields "current_phase" = none ∨
         jsonObjGet fields "current_phase" = some .null)) ∧
    (∀ s, load_current_phase sf = .ok (some s) ↔
      ∃ fields, sf = .parsed (.obj fields) ∧
        jsonObjGet fields "current_phase" = some (.str s)) := by
  cases sf with
  | absent => simp [load_current_phase]
  | unreadable => simp [load_current_phase]
  | parsed payload =>
    cases payload with
    | null => simp [load_current_phase]
    | bool b => simp [load_current_phase]
    | num n => simp [load_current_phase]
    | str s => simp [load_current_phase]
    | arr items => simp [load_current_phase]
    | obj fields =>
      cases hv : jsonObjGet fields "current_phase" with
      | none => simp [load_current_phase, hv]
      | some v =>
        cases v with
        | null => simp [load_current_phase, hv]
        | bool b => simp [load_current_phase, hv]
        | num n => simp [load_current_phase, hv]
        | str s => simp [load_current_phase, hv]
        | arr items => simp [load_current_phase, hv]
        | obj fields2 => simp [load_current_phase, hv]


/-- A key of `dictSet e k v` is `k` or a key of `e`. -/
theorem dictSet_fst (e : Env) (k v : String) :
    ∀ kv ∈ dictSet e k v, kv.1 = k ∨ kv.1 ∈ e.map Prod.fst := by
  intro kv hkv
  unfold dictSet at hkv
  split at hkv
  · obtain ⟨p, hp, heq⟩ := List.mem_map.mp hkv
    by_cases hpk : p.1 = k
    · left
      rw [← heq, if_pos hpk]
    · right
      rw [← heq, if_neg hpk]
      exact List.mem_map_of_mem Prod.fst hp
  · rcases List.mem_append.mp hkv with h1 | h2
    · right
      exact List.mem_map_of_mem Prod.fst h1
    · left
      simp at h2
      rw [h2]

/-- Key-level form of `dictSet_fst`. -/
theorem dictSet_keys (e : Env) (k v : String) :
    ∀ x ∈ (dictSet e k v).map Prod.fst, x = k ∨ x ∈ e.map Prod.fst := by
  intro x hx
  obtain ⟨q, hq, hqs⟩ := List.mem_map.mp hx
  rw [← hqs]
  exact dictSet_fst e k v q hq

/-- A key of `a | b` is a key of `a` or of `b`. -/
theorem dictMerge_keys (b : Env) : ∀ (a : Env), ∀ x ∈ (dictMerge a b).map Prod.fst,
    x ∈ a.map Prod.fst ∨ x ∈ b.map Prod.fst := by
  induction b with
  | nil =>
    intro a x hx
    left
    exact hx
  | cons p rest ih =>
    intro a x hx
    have hstep : dictMerge a (p :: rest) = dictMerge (dictSet a p.1 p.2) rest := rfl
    rw [hstep] at hx
    rcases ih (dictSet a p.1 p.2) x hx with h1 | h2
    · rcases dictSet_keys a p.1 p.2 x h1 with hk | ha
      · right
        simp [hk]
      · left
        exact ha
    · right
      simp [h2]

/-- One rendering round only grows `rendered` with keys taken from the
remaining entries, keeps a sublist of the remaining entries, and passes the
renderer only contexts of the form `dir_env | rendered-so-far`. -/
theorem renderRound_spec (render : String → Env → Except String String) (dirEnv : Env)
    (remaining : List (String × String)) :
    ∀ (rendered errors : Env),
    (∀ x ∈ (renderRound render dirEnv remaining rendered errors).rendered.map Prod.fst,
      x ∈ rendered.map Prod.fst ∨ x ∈ remaining.map Prod.fst) ∧
    (∀ q ∈ (renderRound render dirEnv remaining rendered errors).remaining, q ∈ remaining) ∧
    (∀ ctx ∈ (renderRound render dirEnv remaining rendered errors).contexts,
      ∃ r, ctx = dictMerge dirEnv r ∧
        (∀ x ∈ r.map Prod.fst, x ∈ rendered.map Prod.fst ∨ x ∈ remaining.map Prod.fst)) := by
  induction remaining with
  | nil =>
    intro rendered errors
    refine ⟨?_, ?_, ?_⟩
    · intro x hx
      left
      exact hx
    · simp [renderRound]
    · simp [renderRound]
  | cons q rest ih =>
    intro rendered errors
    obtain ⟨k, tmpl⟩ := q
    cases hr : render tmpl (dictMerge dirEnv rendered) with
    | ok v =>
      have hstep : renderRound render dirEnv ((k, tmpl) :: rest) rendered errors =
          ⟨(renderRound render dirEnv rest (dictSet rendered k v) errors).rendered,
           (renderRound render dirEnv rest (dictSet rendered k v) errors).remaining,
           (renderRound render dirEnv rest (dictSet rendered k v) errors).errors,
           true,
           dictMerge dirEnv rendered ::
             (renderRound render dirEnv rest (dictSet rendered k v) errors).contexts⟩ := by
        simp only [renderRound, hr]
      obtain ⟨ih1, ih2, ih3⟩ := ih (dictSet rendered k v) errors
      rw [hstep]
      refine ⟨?_, ?_, ?_⟩
      · intro x hx
        rcases ih1 x hx with h1 | h2
        · rcases dictSet_keys rendered k v x h1 with hk | hp
          · right
            simp [hk]
          · left
            exact hp
        · right
          simp [h2]
      · intro p hp
        exact List.mem_cons_of_mem _ (ih2 p hp)
      · intro ctx hctx
        rcases List.mem_cons.mp hctx with h1 | h2
        · refine ⟨rendered, h1, ?_⟩
          intro x hx
          left
          exact hx
        · obtain ⟨r, hctxr, hkeys⟩ := ih3 ctx h2
          refine ⟨r, hctxr, ?_⟩
          intro x hx
          rcases hkeys x hx with h3 | h4
          · rcases dictSet_keys rendered k v x h3 with hk | hp
            · right
              simp [hk]
            · left
              exact hp
          · right
            simp [h4]
    | error msg =>
      have hstep : renderRound render dirEnv ((k, tmpl) :: rest) rendered errors =
          ⟨(renderRound render dirEnv rest rendered (dictSet errors k msg)).rendered,
           (k, tmpl) ::
             (renderRound render dirEnv rest rendered (dictSet errors k msg)).remaining,
           (renderRound render dirEnv rest rendered (dictSet errors k msg)).errors,
           (renderRound render dirEnv rest rendered (dictSet errors k msg)).progressed,
           dictMerge dirEnv rendered ::
             (renderRound render dirEnv rest rendered (dictSet errors k msg)).contexts⟩ := by
        simp only [renderRound, hr]
      obtain ⟨ih1, ih2, ih3⟩ := ih rendered (dictSet errors k msg)
      rw [hstep]
      refine ⟨?_, ?_, ?_⟩
      · intro x hx
        rcases ih1 x hx with h1 | h2
        · left
          exact h1
        · right
          simp [h2]
      · intro p hp
        rcases List.mem_cons.mp hp with h1 | h2
        · simp [h1]
        · exact List.mem_cons_of_mem _ (ih2 p h2)
      · intro ctx hctx
        rcases List.mem_cons.mp hctx with h1 | h2
        · refine ⟨rendered, h1, ?_⟩
          intro x hx
          left
          exact hx
        · obtain ⟨r, hctxr, hkeys⟩ := ih3 ctx h2
          refine ⟨r, hctxr, ?_⟩
          intro x hx
          rcases hkeys x hx with h3 | h4
          · left
            exact h3
          · right
            simp [h4]

/-- Across all rounds, every context handed to the renderer is
`dir_env | r` for some `r` whose keys come from the workflow `env` keys. -/
theorem renderRoundsGo_contexts (render : String → Env → Except String String)
    (dirEnv : Env) (fuel : Nat) :
    ∀ (rendered : Env) (remaining : List (String × String)) (K : List String),
    (∀ x ∈ rendered.map Prod.fst, x ∈ K) →
    (∀ x ∈ remaining.map Prod.fst, x ∈ K) →
    ∀ ctx ∈ (renderRoundsGo render dirEnv fuel rendered remaining).2,
      ∃ r, ctx = dictMerge dirEnv r ∧ ∀ x ∈ r.map Prod.fst, x ∈ K := by
  induction fuel with
  | zero =>
    intro rendered remaining K h1 h2 ctx hctx
    cases remaining <;> simp [renderRoundsGo] at hctx
  | succ n ih =>
    intro rendered remaining K h1 h2 ctx hctx
    cases remaining with
    | nil => simp [renderRoundsGo] at hctx
    | cons q rest =>
      obtain ⟨r1, r2, r3⟩ := renderRound_spec render dirEnv (q :: rest) rendered []
      have hsub : ∀ ctx2 ∈ (renderRound render dirEnv (q :: rest) rendered []).contexts,
          ∃ r, ctx2 = dictMerge dirEnv r ∧ ∀ x ∈ r.map Prod.fst, x ∈ K := by
        intro ctx2 hctx2
        obtain ⟨r, hctxr, hkeys⟩ := r3 ctx2 hctx2
        refine ⟨r, hctxr, ?_⟩
        intro x hx
        rcases hkeys x hx with h3 | h4
        · exact h1 x h3
        · exact h2 x h4
      by_cases hp : (renderRound render dirEnv (q :: rest) rendered []).progressed = true
      · have hstep : (renderRoundsGo render dirEnv (n + 1) rendered (q :: rest)).2 =
            (renderRound render dirEnv (q :: rest) rendered []).contexts ++
              (renderRoundsGo render dirEnv n
                (renderRound render dirEnv (q :: rest) rendered []).rendered
                (renderRound render dirEnv (q :: rest) rendered []).remaining).2 := by
          simp only [renderRoundsGo, hp, if_true]
        rw [hstep] at hctx
        rcases List.mem_append.mp hctx with hin | hin
        · exact hsub ctx hin
        · refine ih _ _ K ?_ ?_ ctx hin
          · intro x hx
            rcases r1 x hx with h3 | h4
            · exact h1 x h3
            · exact h2 x h4
          · intro x hx
            obtain ⟨p, hpmem, hps⟩ := List.mem_map.mp hx
            refine h2 x ?_
            rw [← hps]
            exact List.mem_map_of_mem Prod.fst (r2 p hpmem)
      · have hstep : (renderRoundsGo render dirEnv (n + 1) rendered (q :: rest)).2 =
            (renderRound render dirEnv (q :: rest) rendered []).contexts := by
          simp only [renderRoundsGo, hp]
          simp
        rw [hstep] at hctx
        exact hsub ctx hctx

/-- C8: the workflow-environment rendering context contains only the
directory bindings and previously rendered env values — every context is
`dir_env | r` with the keys of `r` drawn from the workflow `env` mapping,
never the inherited process environment nor `INPUT_ENTITY` — and
consequently `build_defined_hook_env` is two-run noninterferent with
respect to the process environment: for any two process environments (and
the same renderer, config and root) it produces identical results. -/
theorem build_defined_hook_env_isolated (procEnv1 procEnv2 : Env)
    (render : String → Env → Except String String)
    (config : WorkflowConfig) (root : List String) :
    build_defined_hook_env procEnv1 render config root =
      build_defined_hook_env procEnv2 render config root ∧
    (∀ ctx ∈ renderContextsOf render config root,
      ∃ r, ctx = dictMerge (dirEnvOf config root) r ∧
        ∀ x ∈ r.map Prod.fst, x ∈ config.environment.map Prod.fst) := by
  refine ⟨rfl, ?_⟩
  intro ctx hctx
  exact renderRoundsGo_contexts render (dirEnvOf config root) config.environment.length
    [] config.environment (config.environment.map Prod.fst)
    (by intro x hx; simp at hx) (fun x hx => hx) ctx hctx

end Dirorch
